import Mathlib

/-!
Shallow embedding of the transaction ledger engine of `src/main.py`
(`FinancialTracker`): the in-memory data model, schema migration,
CRUD + filter + aggregation operations and the category lifecycle rules.

Python strings are modelled by Lean `String`, with the Python `str`
methods used by the program (`lower`, `capitalize`, `strip`, `<`)
re-implemented over the character list so that everything evaluates by
kernel reduction.  Python `float` amounts are modelled as exact
rationals `ℚ` (the spec treats amounts as currency-agnostic decimals).
Python's stable `list.sort` is modelled by `List.insertionSort`, which
is also stable, so both compute the same result for any total preorder
key.  The persisted JSON file is modelled as the `file` component of a
`Store`; `save_expenses` corresponds to overwriting it with the current
in-memory list.
-/

/-- Python `str.lower` on a single ASCII character. -/
def charLower (c : Char) : Char :=
  if 'A' ≤ c && c ≤ 'Z' then Char.ofNat (c.toNat + 32) else c

/-- Python `str.upper` on a single ASCII character. -/
def charUpper (c : Char) : Char :=
  if 'a' ≤ c && c ≤ 'z' then Char.ofNat (c.toNat - 32) else c

/-- Python `s.lower()`. -/
def pyLower (s : String) : String := ⟨s.data.map charLower⟩

/-- Python `s.capitalize()`: first character upper-cased, the rest lower-cased. -/
def pyCapitalize (s : String) : String :=
  match s.data with
  | [] => ""
  | c :: cs => ⟨charUpper c :: cs.map charLower⟩

/-- ASCII whitespace stripped by Python `str.strip()`. -/
def isPySpace (c : Char) : Bool :=
  c = ' ' || c = '\t' || c = '\n' || c = '\r' || c = '\x0B' || c = '\x0C'

/-- Python `s.strip()`. -/
def pyStrip (s : String) : String :=
  ⟨((s.data.dropWhile isPySpace).reverse.dropWhile isPySpace).reverse⟩

/-- Lexicographic (code-point) order on character lists: Python string `<=`. -/
def charListLe : List Char → List Char → Bool
  | [], _ => true
  | _ :: _, [] => false
  | a :: as, b :: bs => if a < b then true else if b < a then false else charListLe as bs

/-- Python string comparison `s <= t` (code-point lexicographic). -/
def strLe (s t : String) : Bool := charListLe s.data t.data

/-- Splits a character list at every `'-'`, like `re` matching of the literal
`-` separators in the `"%Y-%m-%d"` format. -/
def splitDash : List Char → List (List Char)
  | [] => [[]]
  | c :: cs =>
    if c = '-' then [] :: splitDash cs
    else match splitDash cs with
      | [] => [[c]]
      | p :: ps => (c :: p) :: ps

/-- Numeric value of a digit string. -/
def natOfDigits (cs : List Char) : Nat :=
  cs.foldl (fun n c => n * 10 + (c.toNat - 48)) 0

/-- Gregorian leap year, as used by `datetime`. -/
def isLeap (y : Nat) : Bool := (y % 4 == 0 && y % 100 != 0) || y % 400 == 0

/-- Number of days of month `m` of year `y`, as used by `datetime`. -/
def daysInMonth (y m : Nat) : Nat :=
  if m == 2 then (if isLeap y then 29 else 28)
  else if m == 4 || m == 6 || m == 9 || m == 11 then 30 else 31

/-- `datetime.strptime(s, "%Y-%m-%d")` succeeding: exactly four digits of
year, one or two digits of month in `1..12`, one or two digits of day valid
for that month, year at least 1, nothing else in the string. -/
def valid_date (s : String) : Bool :=
  match splitDash s.data with
  | [ys, ms, ds] =>
      ys.length == 4 && ys.all Char.isDigit &&
      1 ≤ ms.length && ms.length ≤ 2 && ms.all Char.isDigit &&
      1 ≤ ds.length && ds.length ≤ 2 && ds.all Char.isDigit &&
      (let y := natOfDigits ys
       let m := natOfDigits ms
       let d := natOfDigits ds
       1 ≤ y && 1 ≤ m && m ≤ 12 && 1 ≤ d && d ≤ daysInMonth y m)
  | _ => false

/-- One ledger record, the dictionary built in `add_transaction`. -/
structure Transaction where
  id : String
  type : String
  amount : ℚ
  category : String
  description : String
  date : String
deriving Repr, DecidableEq

/-- The in-memory transaction list (`self.expenses`) together with the
current contents of the persisted transaction file (`expenses.json`).
`save_expenses` overwrites `file` with `expenses`. -/
structure Store where
  expenses : List Transaction
  file : List Transaction
deriving Repr, DecidableEq

/-- The validation failures reported by `add_transaction` / `save_edit`
(`messagebox` warnings at the presentation boundary). -/
inductive Err
  | invalidAmount
  | missingField
  | invalidDate
deriving Repr, DecidableEq

/-- `DEFAULT_CATEGORIES` of `main.py`. -/
def DEFAULT_CATEGORIES : List String :=
  ["Food", "Transport", "Entertainment", "Shopping", "Bills", "Healthcare", "Other"]

/-- `add_transaction` of `main.py`.  `amountIn` is the outcome of
`float(self.amount_entry.get())`: `none` when it raises `ValueError`
(non-numeric input), `some a` otherwise.  Validation order follows the
source: amount positivity, then non-empty category/description, then
date format; each failure returns without touching the store.  On
success the new record (with the category lower-cased) is appended and
`save_expenses` rewrites the file.  The subsequent UI refresh of the
tree view is modelled separately by `filter_expenses`. -/
def add_transaction (st : Store) (freshId : String) (amountIn : Option ℚ)
    (category description date trans_type : String) : Store × Option Err :=
  match amountIn with
  | none => (st, some Err.invalidAmount)
  | some amount =>
    if amount ≤ 0 then (st, some Err.invalidAmount)
    else if category = "" ∨ description = "" then (st, some Err.missingField)
    else if valid_date date = false then (st, some Err.invalidDate)
    else
      let t : Transaction :=
        { id := freshId, type := trans_type, amount := amount,
          category := pyLower category, description := description, date := date }
      ({ expenses := st.expenses ++ [t], file := st.expenses ++ [t] }, none)

/-- `save_edit` of `main.py` (inner function of `open_edit_window`),
called for a transaction id present in the collection.  It validates the
amount (`float` parse, positivity) and the date format, but performs no
check on the new category or description; on success it mutates the
record with the matching id in place (the Python code mutates the
aliased dict, which is an element of `self.expenses`) and saves. -/
def save_edit (st : Store) (trans_id : String) (amountIn : Option ℚ)
    (new_date new_category new_description new_type : String) : Store × Option Err :=
  match amountIn with
  | none => (st, some Err.invalidAmount)
  | some new_amount =>
    if new_amount ≤ 0 then (st, some Err.invalidAmount)
    else if valid_date new_date = false then (st, some Err.invalidDate)
    else
      let es := st.expenses.map (fun e =>
        if e.id = trans_id then
          { e with amount := new_amount, date := new_date,
                   category := pyLower new_category,
                   description := new_description, type := new_type }
        else e)
      ({ expenses := es, file := es }, none)

/-- Outcome of `delete_expense`: no row selected in the tree (warning,
nothing happens), confirmation dialog declined (nothing happens), or the
collection filtered and saved with the success message shown. -/
inductive DeleteResult
  | noSelection
  | cancelled
  | deleted (st : Store)
deriving Repr, DecidableEq

/-- `delete_expense` of `main.py`: `selected` is the id held by the
selected tree row (`none` when nothing is selected), `confirm` the answer
of the `askyesno` dialog.  When confirmed it keeps every record whose id
differs from the selected id, saves, and reports success. -/
def delete_expense (st : Store) (selected : Option String) (confirm : Bool) : DeleteResult :=
  match selected with
  | none => DeleteResult.noSelection
  | some trans_id =>
    if confirm then
      let es := st.expenses.filter (fun e => e.id != trans_id)
      DeleteResult.deleted { expenses := es, file := es }
    else DeleteResult.cancelled

/-- The in-place `list.sort(key=lambda x: x['date'], reverse=True)` of
`refresh_expense_list`: stable sort by date descending. -/
def sortByDateDesc (es : List Transaction) : List Transaction :=
  List.insertionSort (fun a b => strLe b.date a.date = true) es

/-- Result of the list/filter operation: the underlying collection after
the call and the rows inserted into the tree view. -/
structure FilterView where
  expenses : List Transaction
  displayed : List Transaction
deriving Repr, DecidableEq

/-- `filter_expenses` of `main.py` followed by its
`refresh_expense_list(filtered_list)` call.  `catVar`/`typeVar` are the
values of the two filter combo boxes.  Each active filter builds a fresh
list (a Python list comprehension); with no filter active `filtered_list`
is `self.expenses` itself, so the in-place date sort of
`refresh_expense_list` reorders the underlying collection. -/
def filter_expenses (expenses : List Transaction) (catVar typeVar : String) : FilterView :=
  let category_filter := pyLower catVar
  let l1 := if category_filter ≠ "all categories"
            then expenses.filter (fun e => e.category == category_filter) else expenses
  let l2 := if typeVar ≠ "All Types"
            then l1.filter (fun e => e.type == typeVar) else l1
  let displayed := sortByDateDesc l2
  let expenses' := if category_filter = "all categories" ∧ typeVar = "All Types"
                   then displayed else expenses
  ⟨expenses', displayed⟩

/-- The summary shown by `update_summary`: the three stat boxes and the
category-breakdown entries `(category, amount, percentage)` in the order
they are written into the text box. -/
structure Summary where
  total_income : ℚ
  total_expense : ℚ
  net_balance : ℚ
  breakdown : List (String × ℚ × ℚ)
deriving Repr, DecidableEq

/-- One `expense_categories[exp['category']] += exp['amount']` step on the
`defaultdict` modelled as an association list in insertion order. -/
def addToCategory (acc : List (String × ℚ)) (c : String) (a : ℚ) : List (String × ℚ) :=
  match acc with
  | [] => [(c, a)]
  | (c', a') :: rest =>
    if c' = c then (c', a' + a) :: rest else (c', a') :: addToCategory rest c a

/-- One iteration of the breakdown loop of `update_summary`: Expense
records are accumulated, everything else is skipped. -/
def expCatStep (acc : List (String × ℚ)) (e : Transaction) : List (String × ℚ) :=
  if e.type = "Expense" then addToCategory acc e.category e.amount else acc

/-- The `expense_categories` defaultdict of `update_summary`: per-category
sums of the Expense records, keys in first-occurrence order. -/
def expense_categories (es : List Transaction) : List (String × ℚ) :=
  es.foldl expCatStep []

/-- `update_summary` of `main.py`: the two generator sums, the net
balance, and the breakdown built from `expense_categories` sorted by
amount descending (Python `sorted(..., key=lambda x: x[1], reverse=True)`
is stable, as is `insertionSort` with this relation), each entry carrying
`amount / total_expense * 100`; the breakdown is empty unless
`total_expense > 0`. -/
def update_summary (es : List Transaction) : Summary :=
  let total_income : ℚ := es.foldl (fun s e => if e.type = "Income" then s + e.amount else s) 0
  let total_expense : ℚ := es.foldl (fun s e => if e.type = "Expense" then s + e.amount else s) 0
  let net_balance := total_income - total_expense
  let breakdown :=
    if 0 < total_expense then
      (List.insertionSort (fun x y : String × ℚ => y.2 ≤ x.2) (expense_categories es)).map
        (fun p => (p.1, p.2, p.2 / total_expense * 100))
    else []
  ⟨total_income, total_expense, net_balance, breakdown⟩

/-- Outcome of `add_category`: inserted and saved with a success message,
rejected with the "Category already exists." warning, or — for a name that
is empty after stripping — no message, no mutation and no save at all. -/
inductive AddCatResult
  | ok (cats : List String)
  | alreadyExists
  | silent
deriving Repr, DecidableEq

/-- `add_category` of `main.py` (inner function of
`open_category_manager`): the raw entry text is stripped and lower-cased;
if the result is non-empty and its `capitalize()`d form is not already an
element of `self.categories`, that capitalized form is appended and the
list sorted in place (Python `list.sort()`, code-point ascending) and
saved; a non-empty duplicate gets the warning; an empty result falls
through both branches silently. -/
def add_category (cats : List String) (raw : String) : AddCatResult :=
  let new_cat := pyLower (pyStrip raw)
  if new_cat ≠ "" ∧ pyCapitalize new_cat ∉ cats then
    AddCatResult.ok (List.insertionSort (fun a b => strLe a b = true)
      (cats ++ [pyCapitalize new_cat]))
  else if new_cat ≠ "" then AddCatResult.alreadyExists
  else AddCatResult.silent

/-- Outcome of `remove_category`: nothing selected in the listbox, blocked
by a referencing transaction ("In Use" warning, nothing changes),
confirmation declined, removed and saved, or crashed (`list.remove`
raises `ValueError` when the displayed name is not in the list). -/
inductive RemoveCatResult
  | noSelection
  | categoryInUse
  | cancelled
  | removed (cats : List String)
  | crashed
deriving Repr, DecidableEq

/-- Python `list.remove`: drops the first occurrence, `none` when the
element is absent (where Python raises `ValueError`). -/
def removeFirst : List String → String → Option (List String)
  | [], _ => none
  | c :: cs, x =>
    if c = x then some cs
    else match removeFirst cs x with
      | none => none
      | some r => some (c :: r)

/-- `remove_category` of `main.py` (inner function of
`open_category_manager`): `sel` is the selected index of the listbox,
whose rows display `cat.capitalize()` for each stored category.  The
displayed name is lower-cased and compared for equality against the
stored `category` of every transaction; a match blocks the removal before
anything is touched.  Otherwise, after confirmation, the displayed name
is removed from `self.categories` and the list saved. -/
def remove_category (cats : List String) (expenses : List Transaction)
    (sel : Option Nat) (confirm : Bool) : RemoveCatResult :=
  match sel with
  | none => RemoveCatResult.noSelection
  | some i =>
    match cats.get? i with
    | none => RemoveCatResult.noSelection
    | some c =>
      let disp := pyCapitalize c
      let lower := pyLower disp
      if expenses.any (fun e => e.category == lower) then RemoveCatResult.categoryInUse
      else if confirm then
        match removeFirst cats disp with
        | some cats' => RemoveCatResult.removed cats'
        | none => RemoveCatResult.crashed
      else RemoveCatResult.cancelled

/-- A raw persisted record as loaded from `expenses.json`: field names to
values in dictionary (insertion) order.  Migration never inspects values,
so they are modelled as strings. -/
abbrev RawRecord := List (String × String)

/-- Python `'k' in exp` on a raw record. -/
def hasKey (r : RawRecord) (k : String) : Bool := r.any (fun p => p.1 == k)

/-- The normalization loop of `load_expenses`: each record missing `'id'`
gets a fresh generated identifier (`fresh` is the uuid supply, advanced
once per generated id), each record missing `'type'` gets
`'Expense'`; `needs_save` becomes true as soon as any record is altered.
Returns the migrated records, the `needs_save` flag and the advanced
supply counter. -/
def migrate_records (fresh : Nat → String) : List RawRecord → Nat → List RawRecord × Bool × Nat
  | [], n => ([], false, n)
  | exp :: rest, n =>
    let needsId := !hasKey exp "id"
    let exp1 := if needsId then exp ++ [("id", fresh n)] else exp
    let n1 := if needsId then n + 1 else n
    let needsType := !hasKey exp "type"
    let exp2 := if needsType then exp1 ++ [("type", "Expense")] else exp1
    let r := migrate_records fresh rest n1
    (exp2 :: r.1, needsId || needsType || r.2.1, r.2.2)

/-- `load_expenses` of `main.py` on already-parsed file contents: runs the
migration loop and reports whether `save_expenses` was triggered
(`needs_save`). -/
def load_expenses (fresh : Nat → String) (data : List RawRecord) : List RawRecord × Bool :=
  let (out, needs_save, _) := migrate_records fresh data 0
  (out, needs_save)

/-- Spec-side total: sum of the amounts of the Income records. -/
def spec_total_income (es : List Transaction) : ℚ :=
  ((es.filter (fun e => e.type == "Income")).map Transaction.amount).sum

/-- Spec-side total: sum of the amounts of the Expense records. -/
def spec_total_expense (es : List Transaction) : ℚ :=
  ((es.filter (fun e => e.type == "Expense")).map Transaction.amount).sum

/-- Spec-side per-category sum of Expense amounts. -/
def spec_cat_sum (es : List Transaction) (c : String) : ℚ :=
  ((es.filter (fun e => e.type == "Expense" && e.category == c)).map Transaction.amount).sum

/-- Value of an association list at a key, `0` when absent. -/
def assocGet (acc : List (String × ℚ)) (c : String) : ℚ :=
  match acc with
  | [] => 0
  | (c', a) :: rest => if c' = c then a else assocGet rest c

/-- Concrete fixture: a stored expense in the canonical shape produced by
`add_transaction`. -/
def sample_tx : Transaction := ⟨"a1", "Expense", 5, "food", "lunch", "2024-01-01"⟩

/-- Concrete fixture: an income record with a later date. -/
def sample_tx2 : Transaction := ⟨"a2", "Income", 6, "food", "pay", "2024-02-01"⟩

/-- Concrete fixture: a loaded record whose stored category is upper-cased
(as a hand-edited or legacy `expenses.json` can contain). -/
def sample_caps_tx : Transaction := ⟨"x1", "Expense", 5, "FOOD", "d", "2024-01-01"⟩

/-- Concrete fixture: a store holding `sample_tx`, file in sync. -/
def sample_store : Store := ⟨[sample_tx], [sample_tx]⟩

/-! Helper lemmas. -/

theorem charListLe_trans : ∀ {as bs cs : List Char},
    charListLe as bs = true → charListLe bs cs = true → charListLe as cs = true
  | [], _, _, _, _ => rfl
  | _ :: _, [], _, hab, _ => by simp [charListLe] at hab
  | _ :: _, _ :: _, [], _, hbc => by simp [charListLe] at hbc
  | a :: as, b :: bs, c :: cs, hab, hbc => by
    simp only [charListLe] at hab hbc ⊢
    by_cases h1 : a < b
    · by_cases h2 : b < c
      · simp [lt_trans h1 h2]
      · by_cases h3 : c < b
        · simp [h2, h3] at hbc
        · have hbc' : b = c := le_antisymm (not_lt.mp h3) (not_lt.mp h2)
          simp [hbc' ▸ h1]
    · by_cases h2 : b < a
      · simp [h1, h2] at hab
      · have hab' : a = b := le_antisymm (not_lt.mp h2) (not_lt.mp h1)
        subst hab'
        by_cases h3 : a < c
        · simp [h3]
        · by_cases h4 : c < a
          · simp [h3, h4] at hbc
          · have : charListLe as bs = true := by simpa [h1, h2] using hab
            have : charListLe as cs = true :=
              charListLe_trans this (by simpa [h3, h4] using hbc)
            simp [h3, h4, this]

theorem charListLe_total : ∀ (as bs : List Char),
    charListLe as bs = true ∨ charListLe bs as = true
  | [], _ => Or.inl rfl
  | _ :: _, [] => Or.inr rfl
  | a :: as, b :: bs => by
    rcases lt_trichotomy a b with h | h | h
    · left; simp [charListLe, h]
    · subst h
      rcases charListLe_total as bs with ih | ih
      · left; simp [charListLe, ih]
      · right; simp [charListLe, ih]
    · right; simp [charListLe, h]

theorem foldl_type_sum (ty : String) : ∀ (es : List Transaction) (init : ℚ),
    es.foldl (fun s e => if e.type = ty then s + e.amount else s) init
      = init + ((es.filter (fun e => e.type == ty)).map Transaction.amount).sum
  | [], init => by simp
  | e :: es, init => by
    by_cases h : e.type = ty
    · simp only [List.foldl_cons, if_pos h, List.filter_cons, h, beq_self_eq_true, if_pos,
        List.map_cons, List.sum_cons]
      rw [foldl_type_sum ty es (init + e.amount)]
      ring
    · simp only [List.foldl_cons, if_neg h, List.filter_cons]
      rw [foldl_type_sum ty es init]
      simp [h]

theorem spec_cat_sum_nil (c : String) : spec_cat_sum [] c = 0 := rfl

theorem spec_cat_sum_cons (e : Transaction) (es : List Transaction) (c : String) :
    spec_cat_sum (e :: es) c
      = (if e.type = "Expense" ∧ e.category = c then e.amount else 0) + spec_cat_sum es c := by
  simp only [spec_cat_sum, List.filter_cons]
  by_cases h1 : e.type = "Expense" <;> by_cases h2 : e.category = c <;> simp [h1, h2]

theorem assocGet_addToCategory : ∀ (acc : List (String × ℚ)) (c : String) (a : ℚ) (c' : String),
    assocGet (addToCategory acc c a) c' = assocGet acc c' + (if c' = c then a else 0)
  | [], c, a, c' => by
    by_cases h : c = c'
    · subst h; simp [addToCategory, assocGet]
    · simp only [addToCategory, assocGet, if_neg h,
        if_neg (fun hh : c' = c => h hh.symm)]
      simp
  | (c0, a0) :: rest, c, a, c' => by
    by_cases h0 : c0 = c
    · subst h0
      by_cases h' : c0 = c'
      · simp only [addToCategory, assocGet, if_pos rfl, if_pos h',
          if_pos h'.symm]
      · simp only [addToCategory, assocGet, if_pos rfl, if_neg h',
          if_neg (fun hh : c' = c0 => h' hh.symm)]
        simp
    · by_cases h' : c0 = c'
      · have hcc : ¬ c' = c := fun hh => h0 (h'.trans hh)
        simp only [addToCategory, assocGet, if_neg h0, if_pos h', if_neg hcc]
        simp
      · simp only [addToCategory, assocGet, if_neg h0, if_neg h']
        exact assocGet_addToCategory rest c a c'

theorem keys_addToCategory : ∀ (acc : List (String × ℚ)) (c : String) (a : ℚ),
    (addToCategory acc c a).map Prod.fst
      = if c ∈ acc.map Prod.fst then acc.map Prod.fst else acc.map Prod.fst ++ [c]
  | [], c, a => by simp [addToCategory]
  | (c0, a0) :: rest, c, a => by
    by_cases h0 : c0 = c
    · subst h0; simp [addToCategory]
    · have hne : ¬ c = c0 := fun hh => h0 hh.symm
      by_cases hm : c ∈ rest.map Prod.fst
      · simp [addToCategory, h0, keys_addToCategory rest c a, hm, hne]
      · simp [addToCategory, h0, keys_addToCategory rest c a, hm, hne]

theorem mem_keys_addToCategory (acc : List (String × ℚ)) (c : String) (a : ℚ) (c' : String) :
    c' ∈ (addToCategory acc c a).map Prod.fst ↔ c' ∈ acc.map Prod.fst ∨ c' = c := by
  rw [keys_addToCategory]
  by_cases hm : c ∈ acc.map Prod.fst
  · simp only [if_pos hm]
    exact ⟨Or.inl, fun h => h.elim id (fun hh => hh ▸ hm)⟩
  · simp [if_neg hm, List.mem_append]

theorem nodup_keys_addToCategory (acc : List (String × ℚ)) (c : String) (a : ℚ)
    (h : (acc.map Prod.fst).Nodup) : ((addToCategory acc c a).map Prod.fst).Nodup := by
  rw [keys_addToCategory]
  by_cases hm : c ∈ acc.map Prod.fst
  · simpa [if_pos hm] using h
  · simp only [if_neg hm]
    simp [List.nodup_append, h, hm]

theorem mem_assocGet : ∀ (acc : List (String × ℚ)), (acc.map Prod.fst).Nodup →
    ∀ p ∈ acc, p.2 = assocGet acc p.1
  | [], _, p, hp => absurd hp (List.not_mem_nil p)
  | (c0, a0) :: rest, h, p, hp => by
    rw [List.map_cons] at h
    have h' := List.nodup_cons.mp h
    rcases List.mem_cons.mp hp with rfl | hp'
    · simp [assocGet]
    · have hk : p.1 ∈ rest.map Prod.fst := List.mem_map_of_mem Prod.fst hp'
      have hne : ¬ c0 = p.1 := fun hh => h'.1 (hh ▸ hk)
      simp only [assocGet, if_neg hne]
      exact mem_assocGet rest h'.2 p hp'

theorem expCats_foldl_assocGet : ∀ (es : List Transaction) (acc : List (String × ℚ)) (c : String),
    assocGet (es.foldl expCatStep acc) c = assocGet acc c + spec_cat_sum es c
  | [], acc, c => by simp [spec_cat_sum_nil]
  | e :: es, acc, c => by
    rw [List.foldl_cons, expCats_foldl_assocGet es _ c, spec_cat_sum_cons]
    by_cases h : e.type = "Expense"
    · rw [expCatStep, if_pos h, assocGet_addToCategory]
      by_cases h2 : e.category = c
      · simp [h, h2]; ring
      · have : ¬ c = e.category := fun hh => h2 hh.symm
        simp [h, h2, this]
    · rw [expCatStep, if_neg h]
      simp [h]

theorem expCats_foldl_keys : ∀ (es : List Transaction) (acc : List (String × ℚ)) (c' : String),
    c' ∈ (es.foldl expCatStep acc).map Prod.fst
      ↔ c' ∈ acc.map Prod.fst ∨ ∃ e ∈ es, e.type = "Expense" ∧ e.category = c'
  | [], acc, c' => by simp
  | e :: es, acc, c' => by
    rw [List.foldl_cons, expCats_foldl_keys es _ c']
    by_cases h : e.type = "Expense"
    · rw [expCatStep, if_pos h]
      rw [mem_keys_addToCategory]
      constructor
      · rintro (⟨hm | hceq⟩ | ⟨e', he', hP⟩)
        · exact Or.inl hm
        · exact Or.inr ⟨e, List.mem_cons_self e es, h, hceq.symm⟩
        · exact Or.inr ⟨e', List.mem_cons_of_mem e he', hP⟩
      · rintro (hm | ⟨e', he', hty, hcat⟩)
        · exact Or.inl (Or.inl hm)
        · rcases List.mem_cons.mp he' with rfl | he''
          · exact Or.inl (Or.inr hcat.symm)
          · exact Or.inr ⟨e', he'', hty, hcat⟩
    · rw [expCatStep, if_neg h]
      constructor
      · rintro (hm | ⟨e', he', hP⟩)
        · exact Or.inl hm
        · exact Or.inr ⟨e', List.mem_cons_of_mem e he', hP⟩
      · rintro (hm | ⟨e', he', hty, hcat⟩)
        · exact Or.inl hm
        · rcases List.mem_cons.mp he' with rfl | he''
          · exact absurd hty h
          · exact Or.inr ⟨e', he'', hty, hcat⟩

theorem expCats_foldl_nodup : ∀ (es : List Transaction) (acc : List (String × ℚ)),
    (acc.map Prod.fst).Nodup → ((es.foldl expCatStep acc).map Prod.fst).Nodup
  | [], acc, h => h
  | e :: es, acc, h => by
    rw [List.foldl_cons]
    refine expCats_foldl_nodup es _ ?_
    by_cases h1 : e.type = "Expense"
    · rw [expCatStep, if_pos h1]; exact nodup_keys_addToCategory acc _ _ h
    · rw [expCatStep, if_neg h1]; exact h

theorem filter_ne_length (tid : String) : ∀ (es : List Transaction),
    (es.map Transaction.id).Nodup → tid ∈ es.map Transaction.id →
    (es.filter (fun e => e.id != tid)).length + 1 = es.length
  | [], _, hm => absurd hm (by simp)
  | e :: es, hno, hm => by
    rw [List.map_cons] at hno hm
    have h' := List.nodup_cons.mp hno
    rcases List.mem_cons.mp hm with h | h
    · have hfe : (e.id != tid) = false := by simp [h]
      have hall : ∀ e' ∈ es, (e'.id != tid) = true := by
        intro e' he'
        have hk : e'.id ∈ es.map Transaction.id := List.mem_map_of_mem Transaction.id he'
        have hne : e'.id ≠ tid := fun hh => h'.1 (by rw [← h, ← hh]; exact hk)
        simp only [bne_iff_ne, ne_eq]
        exact hne
      rw [List.filter_cons, hfe]
      simp [List.filter_eq_self.mpr hall]
    · have hne : (e.id != tid) = true := by
        have hx : e.id ≠ tid := fun hh => h'.1 (hh ▸ h)
        simp only [bne_iff_ne, ne_eq]
        exact hx
      rw [List.filter_cons, if_pos hne]
      have ih := filter_ne_length tid es h'.2 h
      simp only [List.length_cons]
      omega

theorem removeFirst_eq_erase : ∀ (l : List String) (x : String), x ∈ l →
    removeFirst l x = some (l.erase x)
  | [], x, h => absurd h (List.not_mem_nil x)
  | c :: cs, x, h => by
    by_cases hc : c = x
    · subst hc; simp [removeFirst, List.erase_cons_head]
    · have hx : x ∈ cs := (List.mem_cons.mp h).resolve_left (fun hh => hc hh.symm)
      rw [List.erase_cons_tail]
      · simp [removeFirst, hc, removeFirst_eq_erase cs x hx]
      · simp [hc]

theorem migrate_records_nil (fresh : Nat → String) (n : Nat) :
    migrate_records fresh [] n = ([], false, n) := rfl

theorem migrate_forall2 (fresh : Nat → String) : ∀ (data : List RawRecord) (n : Nat),
    List.Forall₂ (fun r r' => ∃ gid,
        r' = r ++ (if hasKey r "id" then [] else [("id", gid)])
               ++ (if hasKey r "type" then [] else [("type", "Expense")]))
      data (migrate_records fresh data n).1
  | [], n => by simp [migrate_records]
  | exp :: rest, n => by
    refine List.Forall₂.cons ⟨fresh n, ?_⟩
      (migrate_forall2 fresh rest (if !hasKey exp "id" then n + 1 else n))
    by_cases h1 : hasKey exp "id" <;> by_cases h2 : hasKey exp "type" <;>
      simp [migrate_records, h1, h2, List.append_assoc]

theorem migrate_changed (fresh : Nat → String) : ∀ (data : List RawRecord) (n : Nat),
    (migrate_records fresh data n).2.1 = true ↔
      ∃ r ∈ data, hasKey r "id" = false ∨ hasKey r "type" = false
  | [], n => by simp [migrate_records]
  | exp :: rest, n => by
    have ih := migrate_changed fresh rest (if !hasKey exp "id" then n + 1 else n)
    simp only [migrate_records, Bool.or_eq_true, Bool.not_eq_true'] at ih ⊢
    rw [ih]
    constructor
    · rintro ((h | h) | ⟨r, hr, hP⟩)
      · exact ⟨exp, List.mem_cons_self exp rest, Or.inl h⟩
      · exact ⟨exp, List.mem_cons_self exp rest, Or.inr h⟩
      · exact ⟨r, List.mem_cons_of_mem exp hr, hP⟩
    · rintro ⟨r, hr, hP⟩
      rcases List.mem_cons.mp hr with rfl | hr'
      · exact Or.inl hP
      · exact Or.inr ⟨r, hr', hP⟩

/-! Claim theorems. -/

/-- C1, counterexample: with no filter active, the list/filter operation
reorders the underlying collection in place (the filtered list aliases
`self.expenses` and `refresh_expense_list` sorts it by date descending),
so the collection is not left with the same elements in the same order. -/
theorem C1_counterexample :
    (filter_expenses [sample_tx, sample_tx2] "All Categories" "All Types").expenses
        = [sample_tx2, sample_tx]
    ∧ [sample_tx2, sample_tx] ≠ [sample_tx, sample_tx2] := by decide

/-- C1, amended: the list/filter operation preserves the underlying
collection as a multiset, and whenever a category or type filter is
active the collection is left completely unchanged; only the no-filter
case sorts it in place by date descending. -/
theorem C1_filter_underlying (es : List Transaction) (catVar typeVar : String) :
    (filter_expenses es catVar typeVar).expenses.Perm es
    ∧ (¬ (pyLower catVar = "all categories" ∧ typeVar = "All Types") →
        (filter_expenses es catVar typeVar).expenses = es) := by
  constructor
  · by_cases h : pyLower catVar = "all categories" ∧ typeVar = "All Types"
    · rcases h with ⟨h1, h2⟩
      simp [filter_expenses, sortByDateDesc, h1, h2, List.perm_insertionSort]
    · simp [filter_expenses, if_neg h]
  · intro h
    simp [filter_expenses, if_neg h]

/-- C1, witness: with an active category filter the underlying collection
is untouched. -/
theorem C1_witness : (filter_expenses [sample_tx] "Food" "All Types").expenses = [sample_tx] :=
  (C1_filter_underlying [sample_tx] "Food" "All Types").2 (by decide)

/-- C2 (confirmed): `update_summary` computes `total_income` as the sum of
Income amounts, `total_expense` as the sum of Expense amounts,
`net_balance` as their difference, and the category breakdown as the
per-category Expense sums, each entry carrying its percentage of the
expense total, ordered by amount descending, empty when the expense total
is 0; over `[{Income, 100}, {Expense, 40, food}, {Expense, 10, food}]` it
yields 100 / 50 / 50 and `food: 50 (100%)`. -/
theorem C2_update_summary (es : List Transaction) :
    (update_summary es).total_income = spec_total_income es
    ∧ (update_summary es).total_expense = spec_total_expense es
    ∧ (update_summary es).net_balance = spec_total_income es - spec_total_expense es
    ∧ ((update_summary es).total_expense = 0 → (update_summary es).breakdown = [])
    ∧ (∀ p ∈ (update_summary es).breakdown,
        p.2.1 = spec_cat_sum es p.1 ∧ p.2.2 = p.2.1 / spec_total_expense es * 100)
    ∧ List.Pairwise (fun p q : String × ℚ × ℚ => q.2.1 ≤ p.2.1) (update_summary es).breakdown
    ∧ (0 < (update_summary es).total_expense → ∀ e ∈ es, e.type = "Expense" →
        ∃ p ∈ (update_summary es).breakdown, p.1 = e.category)
    ∧ update_summary [⟨"i1", "Income", 100, "salary", "pay", "2024-01-01"⟩,
        ⟨"e1", "Expense", 40, "food", "a", "2024-01-02"⟩,
        ⟨"e2", "Expense", 10, "food", "b", "2024-01-03"⟩]
      = ⟨100, 50, 50, [("food", 50, 100)]⟩ := by
  have hti : (update_summary es).total_income = spec_total_income es := by
    simp only [update_summary]
    rw [foldl_type_sum "Income" es 0]
    simp [spec_total_income]
  have hte : (update_summary es).total_expense = spec_total_expense es := by
    simp only [update_summary]
    rw [foldl_type_sum "Expense" es 0]
    simp [spec_total_expense]
  have hteq : es.foldl (fun s e => if e.type = "Expense" then s + e.amount else s) 0
      = spec_total_expense es := by
    rw [foldl_type_sum "Expense" es 0]; simp [spec_total_expense]
  refine ⟨hti, hte, ?_, ?_, ?_, ?_, ?_, ?_⟩
  · simp only [update_summary]
    rw [foldl_type_sum "Income" es 0, foldl_type_sum "Expense" es 0]
    simp [spec_total_income, spec_total_expense]
  · intro h
    simp only [update_summary] at h ⊢
    rw [h]
    simp
  · intro p hp
    simp only [update_summary] at hp
    by_cases hT : (0:ℚ) < es.foldl (fun s e => if e.type = "Expense" then s + e.amount else s) 0
    · rw [if_pos hT] at hp
      obtain ⟨q, hq, rfl⟩ := List.mem_map.mp hp
      have hqmem : q ∈ expense_categories es :=
        (List.perm_insertionSort _ _).subset hq
      have hnodup : ((expense_categories es).map Prod.fst).Nodup :=
        expCats_foldl_nodup es [] (by simp)
      have hq2 : q.2 = assocGet (expense_categories es) q.1 :=
        mem_assocGet _ hnodup q hqmem
      have hget : assocGet (expense_categories es) q.1 = spec_cat_sum es q.1 := by
        have := expCats_foldl_assocGet es [] q.1
        simpa [expense_categories, assocGet] using this
      constructor
      · simpa using hq2.trans hget
      · simp only
        rw [hteq]
    · rw [if_neg hT] at hp
      simp at hp
  · simp only [update_summary]
    by_cases hT : (0:ℚ) < es.foldl (fun s e => if e.type = "Expense" then s + e.amount else s) 0
    · rw [if_pos hT]
      haveI : IsTotal (String × ℚ) (fun x y : String × ℚ => y.2 ≤ x.2) :=
        ⟨fun x y => le_total y.2 x.2⟩
      haveI : IsTrans (String × ℚ) (fun x y : String × ℚ => y.2 ≤ x.2) :=
        ⟨fun _ _ _ h h' => le_trans h' h⟩
      have hs := List.sorted_insertionSort (fun x y : String × ℚ => y.2 ≤ x.2)
        (expense_categories es)
      rw [List.pairwise_map]
      exact hs
    · rw [if_neg hT]
      exact List.Pairwise.nil
  · intro hT e he hty
    simp only [update_summary] at hT ⊢
    rw [if_pos hT]
    have hkey : e.category ∈ (expense_categories es).map Prod.fst := by
      have := (expCats_foldl_keys es [] e.category).mpr (Or.inr ⟨e, he, hty, rfl⟩)
      simpa [expense_categories] using this
    obtain ⟨q, hq, hq1⟩ := List.mem_map.mp hkey
    have hqs : q ∈ List.insertionSort (fun x y : String × ℚ => y.2 ≤ x.2)
        (expense_categories es) := (List.perm_insertionSort _ _).mem_iff.mpr hq
    exact ⟨_, List.mem_map_of_mem _ hqs, by simpa using hq1⟩
  · simp +decide only [update_summary, expense_categories, expCatStep, addToCategory,
      List.insertionSort, List.orderedInsert, List.foldl, List.map, Summary.mk.injEq]
    norm_num

/-- C2, witness: the empty ledger has expense total 0, so the breakdown is
reported as empty. -/
theorem C2_witness : (update_summary []).breakdown = [] :=
  (C2_update_summary []).2.2.2.1 rfl

/-- C3 (confirmed): the migration loop of `load_expenses` gives every
record missing an `id` a generated identifier and every record missing a
`type` the value `Expense`, appends nothing else and changes no existing
field (the original record survives as a prefix, unknown fields
included), and the immediate persist is triggered exactly when some
record was altered. -/
theorem C3_migration (fresh : Nat → String) (data : List RawRecord) :
    List.Forall₂ (fun r r' => ∃ gid,
        r' = r ++ (if hasKey r "id" then [] else [("id", gid)])
               ++ (if hasKey r "type" then [] else [("type", "Expense")]))
      data (load_expenses fresh data).1
    ∧ ((load_expenses fresh data).2 = true ↔
        ∃ r ∈ data, hasKey r "id" = false ∨ hasKey r "type" = false) := by
  constructor
  · simpa [load_expenses] using migrate_forall2 fresh data 0
  · simpa [load_expenses] using migrate_changed fresh data 0

/-- C3, witness: a record lacking both keys triggers the persist. -/
theorem C3_witness : (load_expenses (fun _ => "u0") [[("amount", "40")]]).2 = true :=
  (C3_migration (fun _ => "u0") [[("amount", "40")]]).2.mpr
    ⟨[("amount", "40")], by decide, by decide⟩

/-- C4, counterexample: an edit with an empty description (first
conjunct) or an empty category (second conjunct) is not rejected: it
succeeds and writes the empty field, unlike Add, which rejects both. -/
theorem C4_counterexample :
    save_edit sample_store "a1" (some 7) "2024-01-02" "food" "" "Expense"
      = (⟨[⟨"a1", "Expense", 7, "food", "", "2024-01-02"⟩],
          [⟨"a1", "Expense", 7, "food", "", "2024-01-02"⟩]⟩, none)
    ∧ save_edit sample_store "a1" (some 7) "2024-01-02" "" "x" "Expense"
      = (⟨[⟨"a1", "Expense", 7, "", "x", "2024-01-02"⟩],
          [⟨"a1", "Expense", 7, "", "x", "2024-01-02"⟩]⟩, none) := by decide

/-- C4, amended: `save_edit` validates the amount (parse failure and
non-positive values rejected) and the date format exactly as Add does,
failing without any mutation, but it does not check category or
description for emptiness: with a valid amount and date the edit always
succeeds, rewriting the matching record with whatever category and
description were supplied. -/
theorem C4_edit_validation (st : Store) (tid : String) (a : ℚ) (d cat desc ty : String) :
    (save_edit st tid none d cat desc ty = (st, some Err.invalidAmount))
    ∧ (a ≤ 0 → save_edit st tid (some a) d cat desc ty = (st, some Err.invalidAmount))
    ∧ (0 < a → valid_date d = false →
        save_edit st tid (some a) d cat desc ty = (st, some Err.invalidDate))
    ∧ (0 < a → valid_date d = true →
        save_edit st tid (some a) d cat desc ty =
          ({ expenses := st.expenses.map (fun e => if e.id = tid then
                { e with amount := a, date := d, category := pyLower cat,
                         description := desc, type := ty } else e),
             file := st.expenses.map (fun e => if e.id = tid then
                { e with amount := a, date := d, category := pyLower cat,
                         description := desc, type := ty } else e) }, none)) := by
  refine ⟨rfl, ?_, ?_, ?_⟩
  · intro h; simp [save_edit, h]
  · intro ha hd; simp [save_edit, not_le.mpr ha, hd]
  · intro ha hv; simp [save_edit, not_le.mpr ha, hv]

/-- C4, witness: a non-positive amount is rejected on edit with no
mutation. -/
theorem C4_witness :
    save_edit sample_store "a1" (some 0) "2024-01-01" "food" "d" "Expense"
      = (sample_store, some Err.invalidAmount) :=
  (C4_edit_validation sample_store "a1" 0 "2024-01-01" "food" "d" "Expense").2.1 (by decide)

/-- C5, counterexample: adding `"Food"` while `"food"` is stored succeeds
instead of failing with AlreadyExists — the duplicate check compares only
the `capitalize()`d spelling against the stored list — and the inserted
canonical form is capitalized `"Food"`, not lowercase. -/
theorem C5_counterexample :
    add_category ["food"] "Food" = AddCatResult.ok ["Food", "food"] := by decide

/-- C5, amended: for a name that is non-empty after trimming,
`add_category` fails with AlreadyExists exactly when the Capitalized form
of the trimmed lower-cased name is literally an element of the category
list (so duplicate detection is case-insensitive only against entries
stored in Capitalized form, as the defaults and `add_category` itself
produce); otherwise it inserts that Capitalized form — not the lowercase
form — and keeps the list sorted (code-point ascending). -/
theorem C5_add_category (cats : List String) (raw : String)
    (h : pyLower (pyStrip raw) ≠ "") :
    (pyCapitalize (pyLower (pyStrip raw)) ∈ cats →
        add_category cats raw = AddCatResult.alreadyExists)
    ∧ (pyCapitalize (pyLower (pyStrip raw)) ∉ cats →
        ∃ out, add_category cats raw = AddCatResult.ok out
          ∧ out.Perm (pyCapitalize (pyLower (pyStrip raw)) :: cats)
          ∧ List.Pairwise (fun a b => strLe a b = true) out) := by
  constructor
  · intro hm
    simp [add_category, hm, h]
  · intro hm
    have heq : add_category cats raw = AddCatResult.ok (List.insertionSort
        (fun a b => strLe a b = true) (cats ++ [pyCapitalize (pyLower (pyStrip raw))])) := by
      simp [add_category, h, hm]
    refine ⟨_, heq, ?_, ?_⟩
    · exact (List.perm_insertionSort _ _).trans (List.perm_append_singleton _ _)
    · haveI : IsTotal String (fun a b => strLe a b = true) :=
        ⟨fun a b => charListLe_total a.data b.data⟩
      haveI : IsTrans String (fun a b => strLe a b = true) :=
        ⟨fun _ _ _ hab hbc => charListLe_trans hab hbc⟩
      exact List.sorted_insertionSort _ _

/-- C5, witness: a duplicate in matching Capitalized form is rejected. -/
theorem C5_witness : add_category ["Food"] " food " = AddCatResult.alreadyExists :=
  (C5_add_category ["Food"] " food " (by decide)).1 (by decide)

/-- C6, counterexample: a transaction whose stored category is `"FOOD"`
references the category `"Food"` under case-insensitive comparison, yet
`remove_category` succeeds and removes the category: the in-use check
compares the lower-cased display name for exact equality against the
stored value, which is not a case-insensitive match. -/
theorem C6_counterexample :
    remove_category ["Food"] [sample_caps_tx] (some 0) true = RemoveCatResult.removed []
    ∧ pyLower sample_caps_tx.category = pyLower "Food" := by decide

/-- C6, amended: `remove_category` fails with CategoryInUse — touching
neither collection — exactly when some transaction's stored category
equals the lower-cased display name verbatim; when no stored category
equals it exactly (even if some match case-insensitively) the confirmed
removal succeeds and removes exactly one occurrence of the displayed
name, leaving every other entry's multiplicity unchanged. -/
theorem C6_remove_category (cats : List String) (expenses : List Transaction)
    (i : Nat) (c : String) (hc : cats.get? i = some c) :
    ((∃ e ∈ expenses, e.category = pyLower (pyCapitalize c)) →
        remove_category cats expenses (some i) true = RemoveCatResult.categoryInUse)
    ∧ ((∀ e ∈ expenses, e.category ≠ pyLower (pyCapitalize c)) → pyCapitalize c ∈ cats →
        ∃ cats', remove_category cats expenses (some i) true = RemoveCatResult.removed cats'
          ∧ cats'.count (pyCapitalize c) + 1 = cats.count (pyCapitalize c)
          ∧ ∀ x, x ≠ pyCapitalize c → cats'.count x = cats.count x) := by
  constructor
  · rintro ⟨e, he, hcat⟩
    have hany : expenses.any (fun e => e.category == pyLower (pyCapitalize c)) = true :=
      List.any_eq_true.mpr ⟨e, he, by simp [hcat]⟩
    simp only [remove_category, hc]
    rw [if_pos hany]
  · intro hnone hmem
    have hany : expenses.any (fun e => e.category == pyLower (pyCapitalize c)) = false := by
      rcases hval : expenses.any (fun e => e.category == pyLower (pyCapitalize c)) with _ | _
      · rfl
      · obtain ⟨e, he, hbeq⟩ := List.any_eq_true.mp hval
        exact absurd (by simpa using hbeq) (hnone e he)
    have hrf := removeFirst_eq_erase cats (pyCapitalize c) hmem
    refine ⟨cats.erase (pyCapitalize c), ?_, ?_, ?_⟩
    · simp only [remove_category, hc]
      rw [if_neg (by simp [hany])]
      simp only [if_true, hrf]
    · have h1 := List.count_erase_self (pyCapitalize c) cats
      have h2 : 0 < cats.count (pyCapitalize c) := List.count_pos_iff.mpr hmem
      omega
    · intro x hx
      exact List.count_erase_of_ne hx cats

/-- C6, witness: a transaction whose stored category equals the
lower-cased name exactly blocks the removal. -/
theorem C6_witness :
    remove_category ["Food"] [sample_tx] (some 0) true = RemoveCatResult.categoryInUse :=
  (C6_remove_category ["Food"] [sample_tx] 0 "Food" rfl).1
    ⟨sample_tx, List.mem_singleton_self _, by decide⟩

/-- C7, counterexample: on a fresh store with the default category list,
adding a transaction with category `"Gadgets"` — absent from the category
set in any casing — succeeds and stores it: no membership check against
the Category set exists. -/
theorem C7_counterexample :
    (add_transaction ⟨[], []⟩ "id1" (some 5) "Gadgets" "stuff" "2024-01-02" "Expense").2 = none
    ∧ ((add_transaction ⟨[], []⟩ "id1" (some 5) "Gadgets" "stuff" "2024-01-02" "Expense").1.expenses.map
        Transaction.category) = ["gadgets"]
    ∧ "gadgets" ∉ DEFAULT_CATEGORIES.map pyLower := by decide

/-- C7, amended: neither `add_transaction` nor `save_edit` consults any
category collection: with a positive amount, non-empty category and
description and a valid date, the add succeeds unconditionally (appending
the record with its category lower-cased), and the edit succeeds with no
condition on the category at all — so a transaction's category need not
be a member of the Category set. -/
theorem C7_no_membership_check (st : Store) (fid tid : String) (a : ℚ)
    (cat desc date ty : String) (ha : 0 < a) (hv : valid_date date = true) :
    (cat ≠ "" → desc ≠ "" →
      add_transaction st fid (some a) cat desc date ty
        = ({ expenses := st.expenses ++ [⟨fid, ty, a, pyLower cat, desc, date⟩],
             file := st.expenses ++ [⟨fid, ty, a, pyLower cat, desc, date⟩] }, none))
    ∧ (save_edit st tid (some a) date cat desc ty).2 = none := by
  constructor
  · intro hcat hdesc
    simp [add_transaction, not_le.mpr ha, hcat, hdesc, hv]
  · simp [save_edit, not_le.mpr ha, hv]

/-- C7, witness: an edit to a category outside the default set
succeeds. -/
theorem C7_witness :
    (save_edit sample_store "a1" (some 5) "2024-01-02" "Gadgets" "g" "Expense").2 = none :=
  (C7_no_membership_check sample_store "w" "a1" 5 "Gadgets" "g" "2024-01-02" "Expense"
    (by decide) (by decide)).2

/-- C8 (confirmed): every validation failure of `add_transaction` —
non-numeric amount, amount at most 0, empty category or description, or a
date not matching the calendar format such as `"13/01/2024"` — reports
the corresponding failure kind and returns with the in-memory collection
and the persisted file exactly as they were. -/
theorem C8_add_validation (st : Store) (fid cat desc date ty : String) (a : ℚ) :
    (add_transaction st fid none cat desc date ty = (st, some Err.invalidAmount))
    ∧ (a ≤ 0 → add_transaction st fid (some a) cat desc date ty = (st, some Err.invalidAmount))
    ∧ (0 < a → (cat = "" ∨ desc = "") →
        add_transaction st fid (some a) cat desc date ty = (st, some Err.missingField))
    ∧ (0 < a → cat ≠ "" → desc ≠ "" → valid_date date = false →
        add_transaction st fid (some a) cat desc date ty = (st, some Err.invalidDate))
    ∧ valid_date "13/01/2024" = false := by
  refine ⟨rfl, ?_, ?_, ?_, by decide⟩
  · intro h; simp [add_transaction, h]
  · intro ha hcd
    have hne : ¬ (a ≤ 0) := not_le.mpr ha
    simp [add_transaction, hne, hcd]
  · intro ha hcat hdesc hvd
    simp [add_transaction, not_le.mpr ha, hcat, hdesc, hvd]

/-- C8, witness: amount 0, amount -5 and date `13/01/2024` are each
rejected with the right failure and an untouched store. -/
theorem C8_witness :
    add_transaction sample_store "w1" (some 0) "food" "d" "2024-01-01" "Expense"
        = (sample_store, some Err.invalidAmount)
    ∧ add_transaction sample_store "w1" (some (-5)) "food" "d" "2024-01-01" "Expense"
        = (sample_store, some Err.invalidAmount)
    ∧ add_transaction sample_store "w1" (some 5) "food" "d" "13/01/2024" "Expense"
        = (sample_store, some Err.invalidDate) :=
  ⟨(C8_add_validation sample_store "w1" "food" "d" "2024-01-01" "Expense" 0).2.1 (by decide),
   (C8_add_validation sample_store "w1" "food" "d" "2024-01-01" "Expense" (-5)).2.1 (by decide),
   (C8_add_validation sample_store "w1" "food" "d" "13/01/2024" "Expense" 5).2.2.2.1
     (by decide) (by decide) (by decide) (by decide)⟩

/-- C9, counterexample: deleting an id that matches no record is not a
failure reported as NotFound: the operation runs its success path — it
leaves the collection unchanged but rewrites the file and reports a
successful deletion.  (Only a call with nothing selected is rejected.) -/
theorem C9_counterexample :
    delete_expense ⟨[sample_tx], [sample_tx]⟩ (some "zzz") true
      = DeleteResult.deleted ⟨[sample_tx], [sample_tx]⟩ := by decide

/-- C9, amended: a call with nothing selected is the no-op failure; when
ids are unique (the collection invariant), a confirmed delete of a
present id removes exactly the matching record, keeping all others in
their original order; a confirmed delete of an absent id leaves the
collection unchanged but still completes as a reported successful
deletion (rewriting the file) rather than failing with NotFound. -/
theorem C9_delete (st : Store) (tid : String) (c : Bool) :
    (delete_expense st none c = DeleteResult.noSelection)
    ∧ ((st.expenses.map Transaction.id).Nodup → tid ∈ st.expenses.map Transaction.id →
        ∃ es, delete_expense st (some tid) true = DeleteResult.deleted ⟨es, es⟩
          ∧ es.length + 1 = st.expenses.length
          ∧ es.Sublist st.expenses
          ∧ (∀ e ∈ st.expenses, e.id ≠ tid → e ∈ es)
          ∧ (∀ e ∈ es, e.id ≠ tid))
    ∧ (tid ∉ st.expenses.map Transaction.id →
        delete_expense st (some tid) true = DeleteResult.deleted ⟨st.expenses, st.expenses⟩) := by
  refine ⟨rfl, ?_, ?_⟩
  · intro hnd hmem
    refine ⟨st.expenses.filter (fun e => e.id != tid), rfl,
      filter_ne_length tid st.expenses hnd hmem, List.filter_sublist _, ?_, ?_⟩
    · intro e he hne
      refine List.mem_filter.mpr ⟨he, ?_⟩
      simp only [bne_iff_ne, ne_eq]
      exact hne
    · intro e he
      have h2 := (List.mem_filter.mp he).2
      simpa [bne_iff_ne] using h2
  · intro hmem
    have hall : ∀ e ∈ st.expenses, (e.id != tid) = true := by
      intro e he
      have hne : e.id ≠ tid := fun hh => hmem (hh ▸ List.mem_map_of_mem Transaction.id he)
      simp only [bne_iff_ne, ne_eq]
      exact hne
    simp [delete_expense, List.filter_eq_self.mpr hall]

/-- C9, witness: deleting an absent id completes as a success with the
collection unchanged. -/
theorem C9_witness :
    delete_expense sample_store (some "zzz") true
      = DeleteResult.deleted ⟨sample_store.expenses, sample_store.expenses⟩ :=
  (C9_delete sample_store "zzz" true).2.2 (by decide)

/-- C10 (confirmed): `add_category` with a name that is empty after
stripping falls through both branches: no success, no error message, no
change to the category list and no save of the category file. -/
theorem C10_add_category_blank (cats : List String) (raw : String) (h : pyStrip raw = "") :
    add_category cats raw = AddCatResult.silent := by
  have h0 : pyLower (pyStrip raw) = "" := by rw [h]; rfl
  simp [add_category, h0]

/-- C10, witness: whitespace-only input is silently ignored. -/
theorem C10_witness : add_category DEFAULT_CATEGORIES "   " = AddCatResult.silent :=
  C10_add_category_blank DEFAULT_CATEGORIES "   " (by decide)
